import Mathlib

/-!
Shallow embedding of the TaskyApp backend persistence layer
(`backend/services/task_service.py`, `backend/services/user_service.py`,
`backend/api/v1/user.py` and the Pydantic models in `backend/models/`).

Databases are modelled as explicit states (a list of rows plus the
autoincrement counter); every service method becomes a pure function from
the state to a result paired with the successor state.  SQLAlchemy
`query(...).filter(...)` followed by `.first()` is modelled as `List.find?`
over the row list in insertion order; mutating a fetched ORM row followed
by `commit` is modelled as replacing the first matching row; `delete` of a
fetched row removes that row.  Python datetimes are opaque timestamps
(`Nat`); JSON parameter maps are association lists of strings.
-/

namespace TaskyApp

/-- Embeds `backend/models/user.py` `Category`: a validated name/color pair. -/
structure Category where
  name : String
  color : String
deriving DecidableEq

/-- Embeds `backend/models/user.py` `Tag`: a validated name/color pair. -/
structure Tag where
  name : String
  color : String
deriving DecidableEq

/-- Embeds `backend/db/schema.py` `User` row.  The JSON `categories`/`tags`
columns can hold `null` (after an update supplying `None`), hence the
`Option` wrapper around the lists. -/
structure User where
  id : Nat
  username : String
  email : String
  hashed_password : String
  full_name : String
  disabled : Bool
  categories : Option (List Category)
  tags : Option (List Tag)
deriving DecidableEq

/-- Embeds `backend/db/schema.py` `Task` row. -/
structure Task where
  id : Nat
  owner_id : Nat
  name : String
  description : String
  category : String
  dueDate : Option Nat
  parameters : List (String × String)
  completed : Bool
  tags : List String
  priority : Nat
deriving DecidableEq

/-- Embeds `backend/models/task.py` `TaskCreate` after Pydantic validation: the
defaults are the model's field defaults (the `tags` validator turns the
`None` default into `[]`). -/
structure TaskCreate where
  owner_id : Nat
  name : String
  description : String := ""
  category : String := "General"
  dueDate : Option Nat := none
  parameters : List (String × String) := []
  completed : Bool := false
  tags : List String := []
  priority : Nat := 0
deriving DecidableEq

/-- The partial field map handed to `TaskService.update_task` (the route
builds it from `TaskUpdate.model_dump()` with `None` values dropped): a
field is `some v` exactly when the corresponding key is present. -/
structure TaskUpdateMap where
  name : Option String := none
  description : Option String := none
  category : Option String := none
  dueDate : Option Nat := none
  parameters : Option (List (String × String)) := none
  completed : Option Bool := none
  tags : Option (List String) := none
  priority : Option Nat := none
deriving DecidableEq

/-- State of the `tasks` table: rows in insertion order plus the
autoincrement counter for the primary key. -/
structure TaskDB where
  tasks : List Task
  nextId : Nat
deriving DecidableEq

/-- Primary-key facts the database engine guarantees: ids are unique and
below the autoincrement counter. -/
abbrev TaskDB.WF (db : TaskDB) : Prop :=
  (db.tasks.map Task.id).Nodup ∧ ∀ t ∈ db.tasks, t.id < db.nextId

/-- The filter `Task.id == task_id, Task.owner_id == owner_id` used by the
scoped queries in `TaskService`. -/
def taskMatch (owner_id task_id : Nat) (t : Task) : Bool :=
  t.id == task_id && t.owner_id == owner_id

/-- Embeds `TaskService.get_task`: scoped first-match lookup. -/
def TaskDB.get_task (db : TaskDB) (owner_id task_id : Nat) : Option Task :=
  db.tasks.find? (taskMatch owner_id task_id)

/-- Embeds `TaskService.create_task`: builds a row from the validated draft,
inserts it and lets the engine assign the next id. -/
def TaskDB.create_task (db : TaskDB) (d : TaskCreate) : Task × TaskDB :=
  let t : Task :=
    { id := db.nextId
      owner_id := d.owner_id
      name := d.name
      description := d.description
      category := d.category
      dueDate := d.dueDate
      parameters := d.parameters
      completed := d.completed
      tags := d.tags
      priority := d.priority }
  (t, { tasks := db.tasks ++ [t], nextId := db.nextId + 1 })

/-- Embeds `for field, value in task_data.items(): if hasattr(task, field):
setattr(task, field, value)` restricted to the `TaskUpdate` fields: every
supplied field overwrites, every absent field is kept. -/
def applyTaskUpdate (t : Task) (m : TaskUpdateMap) : Task :=
  { t with
    name := m.name.getD t.name
    description := m.description.getD t.description
    category := m.category.getD t.category
    dueDate := match m.dueDate with | some v => some v | none => t.dueDate
    parameters := m.parameters.getD t.parameters
    completed := m.completed.getD t.completed
    tags := m.tags.getD t.tags
    priority := m.priority.getD t.priority }

/-- Committing a mutation of a fetched row: the first row matching the
scoped filter is replaced. -/
def replaceFirstTask (owner_id task_id : Nat) (t2 : Task) : List Task → List Task
  | [] => []
  | x :: xs =>
    if taskMatch owner_id task_id x then t2 :: xs
    else x :: replaceFirstTask owner_id task_id t2 xs

/-- Embeds `TaskService.update_task`: scoped fetch, overwrite supplied fields,
commit; `None` when the scoped fetch misses. -/
def TaskDB.update_task (db : TaskDB) (owner_id task_id : Nat) (m : TaskUpdateMap) :
    Option Task × TaskDB :=
  match db.get_task owner_id task_id with
  | none => (none, db)
  | some t =>
    let t2 := applyTaskUpdate t m
    (some t2, { db with tasks := replaceFirstTask owner_id task_id t2 db.tasks })

/-- Deleting a fetched row: the first row matching the scoped filter is
removed; `none` when no row matches. -/
def removeFirstTask (owner_id task_id : Nat) : List Task → Option (List Task)
  | [] => none
  | x :: xs =>
    if taskMatch owner_id task_id x then some xs
    else (removeFirstTask owner_id task_id xs).map (x :: ·)

/-- Embeds `TaskService.remove_task`: scoped fetch then delete; `False` when the
scoped fetch misses, leaving the state untouched. -/
def TaskDB.remove_task (db : TaskDB) (owner_id task_id : Nat) : Bool × TaskDB :=
  match removeFirstTask owner_id task_id db.tasks with
  | none => (false, db)
  | some ts => (true, { db with tasks := ts })

/-- Embeds `TaskService.get_categories`: `sorted(set(task.category for task in
owner-filtered query))` — distinct labels in Python string order, which is
code-point lexicographic, as is Lean's `String` order. -/
def TaskDB.get_categories (db : TaskDB) (owner_id : Nat) : List String :=
  List.insertionSort (· ≤ ·)
    (((db.tasks.filter (fun t => t.owner_id == owner_id)).map Task.category).dedup)

/-- Embeds `TaskService.mark_task_complete`: scoped fetch; missing → `False`;
already complete → `True` with no write; otherwise set the flag, commit and
return `True`. -/
def TaskDB.mark_task_complete (db : TaskDB) (owner_id task_id : Nat) : Bool × TaskDB :=
  match db.get_task owner_id task_id with
  | none => (false, db)
  | some t =>
    if t.completed then (true, db)
    else
      (true, { db with
        tasks := replaceFirstTask owner_id task_id { t with completed := true } db.tasks })

/-- Embeds `TaskServiceJson.get_task`: linear scan of the JSON file matching both
the stored id and owner id. -/
def getTaskJson (tasks : List Task) (owner_id task_id : Nat) : Option Task :=
  tasks.find? (taskMatch owner_id task_id)

/-- Embeds `TaskServiceJson.remove_task`: keeps every non-matching record (stored
tasks always carry an `id`, so the `task_id` fallback key never fires) and
reports whether the file shrank. -/
def removeTaskJson (tasks : List Task) (owner_id task_id : Nat) : Bool × List Task :=
  let new_tasks := tasks.filter (fun t => !(taskMatch owner_id task_id t))
  if new_tasks.length = tasks.length then (false, tasks) else (true, new_tasks)

/-- Embeds `TaskServiceJson.get_categories`: filters by owner only when
`owner_id` is truthy (non-zero) and returns `list(set(...))`; the
unspecified set iteration order is modelled as first-occurrence order. -/
def getCategoriesJson (tasks : List Task) (owner_id : Nat) : List String :=
  let ts := if owner_id ≠ 0 then tasks.filter (fun t => t.owner_id == owner_id) else tasks
  ((ts.map (fun t => t.category)).dedup)

/-- Embeds `backend/models/user.py` `UserCreate` after validation: the category
list defaults to a single `General` entry and the tag list to `None`. -/
structure UserCreate where
  username : String
  email : Option String := none
  password : String
  full_name : Option String := none
  categories : Option (List Category) := some [{ name := "General", color := "#5dafb0" }]
  tags : Option (List Tag) := none
deriving DecidableEq

/-- The partial field map handed to `UserService.update_user`; raw
category/tag dicts are name/color string pairs, and the `categories`/
`tags` keys may be present with value `None` (hence the nested `Option`).
An `id` key may be present but is ignored by the service. -/
structure UserUpdateMap where
  id : Option Nat := none
  username : Option String := none
  email : Option String := none
  hashed_password : Option String := none
  full_name : Option String := none
  disabled : Option Bool := none
  categories : Option (Option (List (String × String))) := none
  tags : Option (Option (List (String × String))) := none
deriving DecidableEq

/-- State of the `users` table. -/
structure UserDB where
  users : List User
  nextId : Nat
deriving DecidableEq

/-- Primary-key facts the database engine guarantees for the users table. -/
abbrev UserDB.WF (db : UserDB) : Prop :=
  (db.users.map User.id).Nodup ∧ ∀ u ∈ db.users, u.id < db.nextId

/-- Embeds `UserService.get_user`: first-match lookup by primary key. -/
def UserDB.get_user (db : UserDB) (user_id : Nat) : Option User :=
  db.users.find? (fun u => u.id == user_id)

/-- Embeds `UserService.get_user_by_username`. -/
def UserDB.get_user_by_username (db : UserDB) (username : String) : Option User :=
  db.users.find? (fun u => u.username == username)

/-- Committing a mutation of a fetched user row. -/
def replaceFirstUser (user_id : Nat) (u2 : User) : List User → List User
  | [] => []
  | x :: xs => if x.id == user_id then u2 :: xs else x :: replaceFirstUser user_id u2 xs

/-- Embeds `UserService.create_user`: `email or ""`, `full_name or ""`,
`disabled=False`, and `categories or []` / `tags or []` dumped to storage. -/
def UserDB.create_user (db : UserDB) (uc : UserCreate) : User × UserDB :=
  let u : User :=
    { id := db.nextId
      username := uc.username
      email := uc.email.getD ""
      hashed_password := uc.password
      full_name := uc.full_name.getD ""
      disabled := false
      categories := some (uc.categories.getD [])
      tags := some (uc.tags.getD []) }
  (u, { users := db.users ++ [u], nextId := db.nextId + 1 })

/-- The `Category(**cat)` (resp. `Tag(**tag)`) revalidation performed by
`update_user`: a name that is empty after stripping raises, otherwise the
stripped name and the color are kept. -/
def validateNamedDict (c : String × String) : Option (String × String) :=
  if c.1.trim = "" then none else some (c.1.trim, c.2)

/-- Revalidate a raw category dict into a stored `Category`. -/
def validateCategoryDict (c : String × String) : Option Category :=
  (validateNamedDict c).map (fun p => { name := p.1, color := p.2 })

/-- Revalidate a raw tag dict into a stored `Tag`. -/
def validateTagDict (c : String × String) : Option (Tag) :=
  (validateNamedDict c).map (fun p => { name := p.1, color := p.2 })

/-- Result of `UserService.update_user`: the user may be missing, the
category/tag revalidation may raise (rolling the transaction back), or the
updated row is returned. -/
inductive UpdateUserResult
  | notFound
  | error
  | ok (u : User)
deriving DecidableEq

/-- The field loop of `UserService.update_user`: every supplied field is
overwritten except `id`, which is explicitly skipped; a supplied
`categories`/`tags` value of `None` is stored as `null`, a supplied list is
revalidated element-wise; `none` models the validation exception. -/
def applyUserUpdate (u : User) (m : UserUpdateMap) : Option User :=
  match
    (match m.categories with
     | none => some u.categories
     | some none => some none
     | some (some l) => (l.mapM validateCategoryDict).map some),
    (match m.tags with
     | none => some u.tags
     | some none => some none
     | some (some l) => (l.mapM validateTagDict).map some) with
  | some cats, some tgs =>
    some { u with
      username := m.username.getD u.username
      email := m.email.getD u.email
      hashed_password := m.hashed_password.getD u.hashed_password
      full_name := m.full_name.getD u.full_name
      disabled := m.disabled.getD u.disabled
      categories := cats
      tags := tgs }
  | _, _ => none

/-- Embeds `UserService.update_user`: fetch by id, apply the field loop, commit;
an exception rolls back, leaving the state untouched. -/
def UserDB.update_user (db : UserDB) (user_id : Nat) (m : UserUpdateMap) :
    UpdateUserResult × UserDB :=
  match db.get_user user_id with
  | none => (.notFound, db)
  | some u =>
    match applyUserUpdate u m with
    | none => (.error, db)
    | some u2 =>
      (.ok u2, { db with users := replaceFirstUser user_id u2 db.users })

/-- The merge loop shared by `create_category` and `create_tag`: replace
the first entry whose name matches, else append. -/
def upsertByName {α : Type} (key : α → String) (n : String) (v : α) : List α → List α
  | [] => [v]
  | x :: xs => if key x == n then v :: xs else x :: upsertByName key n v xs

/-- Embeds `UserService.create_category`: fetch the user, merge the category into
`user.categories or []` by name, commit, and return the submitted
category. -/
def UserDB.create_category (db : UserDB) (user_id : Nat) (c : Category) :
    Option Category × UserDB :=
  match db.get_user user_id with
  | none => (none, db)
  | some u =>
    let cats := upsertByName Category.name c.name c (u.categories.getD [])
    (some c,
      { db with users := replaceFirstUser user_id { u with categories := some cats } db.users })

/-- Embeds `UserService.create_tag`: identical merge on the tag list. -/
def UserDB.create_tag (db : UserDB) (user_id : Nat) (tg : Tag) :
    Option Tag × UserDB :=
  match db.get_user user_id with
  | none => (none, db)
  | some u =>
    let tgs := upsertByName Tag.name tg.name tg (u.tags.getD [])
    (some tg,
      { db with users := replaceFirstUser user_id { u with tags := some tgs } db.users })

/-- The partition loop shared by `delete_category` and `delete_tag`:
first component collects the entries whose name matches, second the kept
entries, both in order. -/
def deleteByName {α : Type} (key : α → String) (n : String) : List α → List α × List α
  | [] => ([], [])
  | x :: xs =>
    let (d, k) := deleteByName key n xs
    if key x == n then (x :: d, k) else (d, x :: k)

/-- Embeds `UserService.delete_category`: fetch the user, partition
`user.categories or []` by exact name match, store the kept entries and
return the removed ones. -/
def UserDB.delete_category (db : UserDB) (user_id : Nat) (n : String) :
    Option (List Category) × UserDB :=
  match db.get_user user_id with
  | none => (none, db)
  | some u =>
    let dk := deleteByName Category.name n (u.categories.getD [])
    (some dk.1,
      { db with users := replaceFirstUser user_id { u with categories := some dk.2 } db.users })

/-- Embeds `UserService.delete_tag`: symmetric on the tag list. -/
def UserDB.delete_tag (db : UserDB) (user_id : Nat) (n : String) :
    Option (List Tag) × UserDB :=
  match db.get_user user_id with
  | none => (none, db)
  | some u =>
    let dk := deleteByName Tag.name n (u.tags.getD [])
    (some dk.1,
      { db with users := replaceFirstUser user_id { u with tags := some dk.2 } db.users })

/-- The `/register` route (`backend/api/v1/user.py` `create_user`):
reject a taken username, otherwise rebuild a `UserCreate` from only the
username, email, hashed password and full name — the submitted
category/tag lists are dropped and the model defaults apply — and insert
it through the service. -/
def register (db : UserDB) (hash : String → String) (inp : UserCreate) :
    Option User × UserDB :=
  match db.get_user_by_username inp.username with
  | some _ => (none, db)
  | none =>
    let r := db.create_user
      { username := inp.username
        email := inp.email
        password := hash inp.password
        full_name := inp.full_name }
    (some r.1, r.2)

/-- Whether no row of `tasks` matches the scoped filter for
`(owner_id, task_id)` — the hypothesis shared by the non-existent-id and
mismatched-owner cases. -/
abbrev noMatchIn (tasks : List Task) (owner_id task_id : Nat) : Prop :=
  ∀ t ∈ tasks, ¬(t.id = task_id ∧ t.owner_id = owner_id)

/-- Concrete rows used by the witnesses below. -/
def t1 : Task :=
  { id := 1, owner_id := 1, name := "Ship it", description := "", category := "General",
    dueDate := none, parameters := [], completed := false, tags := [], priority := 2 }

/-- A one-row task table whose autoincrement counter is past the row id. -/
def db1 : TaskDB := { tasks := [t1], nextId := 2 }

/-- The name-only partial map used by the C3 witness. -/
def mRename : TaskUpdateMap := { name := some "Renamed" }

/-- The row the C3 witness expects after the name-only update. -/
def t1Renamed : Task := { t1 with name := "Renamed" }

/-- Task owned by user 1 used by the C6 counterexample. -/
def jsonCatTask : Task :=
  { id := 1, owner_id := 1, name := "n", description := "", category := "Work",
    dueDate := none, parameters := [], completed := false, tags := [], priority := 0 }

/-- The two-field draft used by the C8 witness. -/
def d0 : TaskCreate := { owner_id := 5, name := "New" }

/-- Concrete user row used by the user-side witnesses. -/
def u1 : User :=
  { id := 1, username := "alice", email := "", hashed_password := "h", full_name := "",
    disabled := false,
    categories := some [{ name := "Work", color := "#FF0000" }],
    tags := some [{ name := "urgent", color := "#000000" }] }

/-- A one-row user table whose autoincrement counter is past the row id. -/
def udb1 : UserDB := { users := [u1], nextId := 2 }

/-- Recolored `Work` category submitted by the C1 witness. -/
def cWork2 : Category := { name := "Work", color := "#00FF00" }

/-- Fresh tag submitted by the C1 witness. -/
def tgNew : Tag := { name := "new", color := "#111111" }

/-- Partial user map carrying an `id` entry, used by the C9 witness. -/
def mUserUpd : UserUpdateMap := { id := some 99, username := some "bob" }

/-- Registration input carrying custom category/tag lists that the route
must drop, used by the C10 witness. -/
def inpBob : UserCreate :=
  { username := "bob", email := some "b@x", password := "pw", full_name := some "Bob B",
    categories := some [{ name := "X", color := "#123456" }],
    tags := some [{ name := "y", color := "#654321" }] }

/-- Identity stand-in for the password hash used by the C10 witness. -/
def idHash : String → String := fun s => s

theorem taskMatch_iff (owner_id task_id : Nat) (t : Task) :
    taskMatch owner_id task_id t = true ↔ (t.id = task_id ∧ t.owner_id = owner_id) := by
  simp [taskMatch]

theorem get_task_eq_none_of_noMatch {db : TaskDB} {oid tid : Nat}
    (h : noMatchIn db.tasks oid tid) : db.get_task oid tid = none := by
  rw [TaskDB.get_task, List.find?_eq_none]
  intro t ht
  simp only [taskMatch_iff]
  exact h t ht

theorem removeFirstTask_eq_none {oid tid : Nat} {l : List Task}
    (h : ∀ t ∈ l, taskMatch oid tid t = false) :
    removeFirstTask oid tid l = none := by
  induction l with
  | nil => rfl
  | cons x xs ih =>
    rw [removeFirstTask]
    rw [h x (List.mem_cons_self x xs)]
    simp only [Bool.false_eq_true, if_false]
    rw [ih fun t ht => h t (List.mem_cons_of_mem x ht)]
    rfl

theorem find?_replaceFirstTask {oid tid : Nat} {l : List Task} {t t2 : Task}
    (hf : l.find? (taskMatch oid tid) = some t)
    (h2 : taskMatch oid tid t2 = true) :
    (replaceFirstTask oid tid t2 l).find? (taskMatch oid tid) = some t2 := by
  induction l with
  | nil => simp at hf
  | cons x xs ih =>
    by_cases hx : taskMatch oid tid x = true
    · rw [replaceFirstTask, if_pos hx]
      exact List.find?_cons_of_pos _ h2
    · rw [List.find?_cons_of_neg _ hx] at hf
      rw [replaceFirstTask, if_neg hx]
      rw [List.find?_cons_of_neg _ hx]
      exact ih hf

theorem get_task_some_facts {db : TaskDB} {oid tid : Nat} {t : Task}
    (h : db.get_task oid tid = some t) :
    t ∈ db.tasks ∧ t.id = tid ∧ t.owner_id = oid := by
  refine ⟨List.mem_of_find?_eq_some h, ?_⟩
  have := List.find?_some h
  rwa [taskMatch_iff] at this

/-- Setting an already-set completion flag is the identity on the row. -/
theorem task_set_completed_self (t : Task) (h : t.completed = true) :
    ({ t with completed := true } : Task) = t := by
  cases t
  simp_all

/-- C2. Ownership scoping without existence leakage: when no task both has
the given id and is owned by the given owner — covering both the
non-existent-id case and the mismatched-owner case — `get_task` returns
`None`, `update_task` returns `None` with the store untouched, and
`remove_task` returns `False` with the store untouched. -/
theorem scoped_ops_no_leakage (db : TaskDB) (oid tid : Nat) (m : TaskUpdateMap)
    (h : noMatchIn db.tasks oid tid) :
    db.get_task oid tid = none ∧
    db.update_task oid tid m = (none, db) ∧
    db.remove_task oid tid = (false, db) := by
  have hget : db.get_task oid tid = none := get_task_eq_none_of_noMatch h
  have hrem : removeFirstTask oid tid db.tasks = none := by
    refine removeFirstTask_eq_none fun t ht => ?_
    have h1 : ¬(taskMatch oid tid t = true) := by
      rw [taskMatch_iff]
      exact h t ht
    simpa using h1
  refine ⟨hget, ?_, ?_⟩
  · rw [TaskDB.update_task, hget]
  · rw [TaskDB.remove_task, hrem]

/-- Witness for C2 at a mismatched owner: the one stored task has id 1 but
owner 1, and owner 2's scoped lookup misses. -/
theorem scoped_ops_no_leakage_witness :
    noMatchIn db1.tasks 2 1 ∧ db1.get_task 2 1 = none :=
  ⟨by decide, (scoped_ops_no_leakage db1 2 1 {} (by decide)).1⟩

/-- C4. `mark_task_complete` is idempotent: on an existing owned task the
first call answers `True` and the stored row has its completion flag set;
a second call answers `True` and leaves the state exactly as it was (no
rewrite); on a missing or differently-owned task it answers `False` with
the store untouched. -/
theorem mark_complete_idempotent (db : TaskDB) (oid tid : Nat) :
    (∀ t, db.get_task oid tid = some t →
      (db.mark_task_complete oid tid).1 = true ∧
      (db.mark_task_complete oid tid).2.get_task oid tid
        = some ({ t with completed := true } : Task) ∧
      (db.mark_task_complete oid tid).2.mark_task_complete oid tid
        = (true, (db.mark_task_complete oid tid).2)) ∧
    (db.get_task oid tid = none → db.mark_task_complete oid tid = (false, db)) := by
  constructor
  · intro t hget
    have hmatch : taskMatch oid tid t = true := List.find?_some hget
    by_cases hc : t.completed = true
    · have heq : ({ t with completed := true } : Task) = t := task_set_completed_self t hc
      have hmark : db.mark_task_complete oid tid = (true, db) := by
        rw [TaskDB.mark_task_complete, hget]
        simp [hc]
      rw [hmark, heq]
      exact ⟨rfl, hget, hmark⟩
    · have hc' : t.completed = false := by simpa using hc
      have hmark : db.mark_task_complete oid tid =
          (true, { db with
            tasks := replaceFirstTask oid tid ({ t with completed := true } : Task) db.tasks }) := by
        rw [TaskDB.mark_task_complete, hget]
        simp [hc']
      have hmatch2 : taskMatch oid tid ({ t with completed := true } : Task) = true := by
        simpa [taskMatch] using hmatch
      have hget2 : ({ db with
          tasks := replaceFirstTask oid tid ({ t with completed := true } : Task) db.tasks }
            : TaskDB).get_task oid tid = some ({ t with completed := true } : Task) := by
        rw [TaskDB.get_task]
        exact find?_replaceFirstTask hget hmatch2
      rw [hmark]
      refine ⟨rfl, hget2, ?_⟩
      rw [TaskDB.mark_task_complete, hget2]
      simp
  · intro hnone
    rw [TaskDB.mark_task_complete, hnone]

/-- Witness for C4: marking the stored incomplete task answers `True`, the
row is stored completed, and a repeat call answers `True` with the state
unchanged. -/
theorem mark_complete_idempotent_witness :
    db1.get_task 1 1 = some t1 ∧
    (db1.mark_task_complete 1 1).1 = true ∧
    (db1.mark_task_complete 1 1).2.get_task 1 1 = some ({ t1 with completed := true } : Task) :=
  ⟨rfl, ((mark_complete_idempotent db1 1 1).1 t1 rfl).1,
    ((mark_complete_idempotent db1 1 1).1 t1 rfl).2.1⟩

theorem removeFirstTask_eq_some {oid tid : Nat} {l ts : List Task}
    (h : removeFirstTask oid tid l = some ts) :
    ∃ l1 tr l2, l = l1 ++ tr :: l2 ∧ ts = l1 ++ l2 ∧
      taskMatch oid tid tr = true ∧ ∀ x ∈ l1, taskMatch oid tid x = false := by
  induction l generalizing ts with
  | nil => simp [removeFirstTask] at h
  | cons x xs ih =>
    by_cases hx : taskMatch oid tid x = true
    · rw [removeFirstTask, if_pos hx] at h
      obtain rfl : xs = ts := by injection h
      exact ⟨[], x, xs, rfl, rfl, hx, by simp⟩
    · rw [removeFirstTask, if_neg hx] at h
      obtain ⟨ts0, hts0, rfl⟩ := Option.map_eq_some'.mp h
      obtain ⟨l1, tr, l2, rfl, rfl, htr, hl1⟩ := ih hts0
      refine ⟨x :: l1, tr, l2, rfl, rfl, htr, ?_⟩
      intro y hy
      rcases List.mem_cons.mp hy with rfl | hy2
      · simpa using hx
      · exact hl1 y hy2

theorem removeFirstTask_isSome {oid tid : Nat} {l : List Task} {t : Task}
    (hmem : t ∈ l) (hmatch : taskMatch oid tid t = true) :
    ∃ ts, removeFirstTask oid tid l = some ts := by
  induction l with
  | nil => cases hmem
  | cons x xs ih =>
    by_cases hx : taskMatch oid tid x = true
    · exact ⟨xs, by rw [removeFirstTask, if_pos hx]⟩
    · rcases List.mem_cons.mp hmem with rfl | hm2
      · exact absurd hmatch hx
      · obtain ⟨ts0, h0⟩ := ih hm2
        exact ⟨x :: ts0, by rw [removeFirstTask, if_neg hx, h0]; rfl⟩

theorem length_filter_ne_of_dropped {l : List Task} {p : Task → Bool} {x : Task}
    (hx : x ∈ l) (hpx : p x = false) : (l.filter p).length ≠ l.length := by
  intro hlen
  have heq : l.filter p = l := (List.filter_sublist l).eq_of_length hlen
  have := (List.filter_eq_self.mp heq) x hx
  rw [hpx] at this
  exact Bool.false_ne_true this

/-- C5. Delete is idempotent in effect, for the database service (under
the primary-key facts the engine guarantees) and for the JSON fallback
service alike: the first delete of an existing owned task answers `True`,
a subsequent scoped get answers `None`, and a second delete answers
`False` leaving the state untouched. -/
theorem delete_idempotent_in_effect (db : TaskDB) (oid tid : Nat) (t : Task)
    (hwf : db.WF) (hget : db.get_task oid tid = some t) :
    (db.remove_task oid tid).1 = true ∧
    (db.remove_task oid tid).2.get_task oid tid = none ∧
    (db.remove_task oid tid).2.remove_task oid tid = (false, (db.remove_task oid tid).2) ∧
    (∀ (tasks : List Task) (tj : Task), getTaskJson tasks oid tid = some tj →
      (removeTaskJson tasks oid tid).1 = true ∧
      getTaskJson (removeTaskJson tasks oid tid).2 oid tid = none ∧
      removeTaskJson (removeTaskJson tasks oid tid).2 oid tid
        = (false, (removeTaskJson tasks oid tid).2)) := by
  obtain ⟨ts, hrem⟩ : ∃ ts, removeFirstTask oid tid db.tasks = some ts := by
    obtain ⟨hmem, hid, hown⟩ := get_task_some_facts hget
    exact removeFirstTask_isSome hmem (by rw [taskMatch_iff]; exact ⟨hid, hown⟩)
  obtain ⟨l1, tr, l2, hdecomp, hts, htr, hl1⟩ := removeFirstTask_eq_some hrem
  have htrid : tr.id = tid := ((taskMatch_iff oid tid tr).mp htr).1
  have hp : db.tasks.Pairwise (fun a b => a.id ≠ b.id) := by
    have h0 := hwf.1
    simp only [List.Nodup, List.pairwise_map] at h0
    exact h0
  rw [hdecomp, List.pairwise_append] at hp
  obtain ⟨hp1, hp2, hp12⟩ := hp
  have hallne : ∀ x ∈ ts, x.id ≠ tid := by
    intro x hxm
    rw [hts] at hxm
    rcases List.mem_append.mp hxm with hx1 | hx2
    · have := hp12 x hx1 tr (List.mem_cons_self tr l2)
      rw [htrid] at this
      exact this
    · have := (List.pairwise_cons.mp hp2).1 x hx2
      rw [htrid] at this
      exact fun hc => this hc.symm
  have hallfalse : ∀ x ∈ ts, taskMatch oid tid x = false := by
    intro x hxm
    have h1 : ¬(taskMatch oid tid x = true) := by
      rw [taskMatch_iff]
      exact fun hc => hallne x hxm hc.1
    simpa using h1
  have hr1 : db.remove_task oid tid = (true, { db with tasks := ts }) := by
    rw [TaskDB.remove_task, hrem]
  refine ⟨by rw [hr1], ?_, ?_, ?_⟩
  · rw [hr1, TaskDB.get_task, List.find?_eq_none]
    intro x hxm
    rw [hallfalse x hxm]
    simp
  · rw [hr1]
    have : removeFirstTask oid tid ts = none := removeFirstTask_eq_none hallfalse
    rw [TaskDB.remove_task]
    simp only [this]
  · intro tasks tj hgetj
    have hmatchj : taskMatch oid tid tj = true := List.find?_some hgetj
    have hmemj : tj ∈ tasks := List.mem_of_find?_eq_some hgetj
    have hnotkeep : (fun t => !(taskMatch oid tid t)) tj = false := by
      simp [hmatchj]
    have hlen : (tasks.filter (fun t => !(taskMatch oid tid t))).length ≠ tasks.length :=
      length_filter_ne_of_dropped hmemj hnotkeep
    have hrj : removeTaskJson tasks oid tid
        = (true, tasks.filter (fun t => !(taskMatch oid tid t))) := by
      simp only [removeTaskJson]
      rw [if_neg hlen]
    rw [hrj]
    have hkeepfalse : ∀ x ∈ tasks.filter (fun t => !(taskMatch oid tid t)),
        taskMatch oid tid x = false := by
      intro x hxm
      have := (List.mem_filter.mp hxm).2
      simpa using this
    refine ⟨rfl, ?_, ?_⟩
    · rw [getTaskJson, List.find?_eq_none]
      intro x hxm
      rw [hkeepfalse x hxm]
      simp
    · have hself : (tasks.filter (fun t => !(taskMatch oid tid t))).filter
          (fun t => !(taskMatch oid tid t)) = tasks.filter (fun t => !(taskMatch oid tid t)) := by
        rw [List.filter_eq_self]
        intro a ha
        rw [hkeepfalse a ha]
        simp
      simp only [removeTaskJson]
      simp [hself]

/-- Witness for C5: deleting the stored task answers `True` and the
re-delete and re-get both miss. -/
theorem delete_idempotent_in_effect_witness :
    TaskDB.WF db1 ∧ db1.get_task 1 1 = some t1 ∧
    (db1.remove_task 1 1).1 = true ∧
    (db1.remove_task 1 1).2.get_task 1 1 = none :=
  ⟨by decide, rfl, (delete_idempotent_in_effect db1 1 1 t1 (by decide) rfl).1,
    (delete_idempotent_in_effect db1 1 1 t1 (by decide) rfl).2.1⟩

/-- C3. A partial task update touches only the supplied fields: the
returned row — which is also what a subsequent scoped get answers — holds
the supplied value for every field present in the map and the pre-update
value for every field absent from it, and its identity and owner are
untouched. -/
theorem update_touches_only_supplied_fields (db : TaskDB) (oid tid : Nat)
    (m : TaskUpdateMap) (t t2 : Task)
    (hget : db.get_task oid tid = some t)
    (hres : (db.update_task oid tid m).1 = some t2) :
    (db.update_task oid tid m).2.get_task oid tid = some t2 ∧
    t2.id = t.id ∧ t2.owner_id = t.owner_id ∧
    (∀ v, m.name = some v → t2.name = v) ∧
    (m.name = none → t2.name = t.name) ∧
    (∀ v, m.description = some v → t2.description = v) ∧
    (m.description = none → t2.description = t.description) ∧
    (∀ v, m.category = some v → t2.category = v) ∧
    (m.category = none → t2.category = t.category) ∧
    (∀ v, m.dueDate = some v → t2.dueDate = some v) ∧
    (m.dueDate = none → t2.dueDate = t.dueDate) ∧
    (∀ v, m.parameters = some v → t2.parameters = v) ∧
    (m.parameters = none → t2.parameters = t.parameters) ∧
    (∀ v, m.completed = some v → t2.completed = v) ∧
    (m.completed = none → t2.completed = t.completed) ∧
    (∀ v, m.tags = some v → t2.tags = v) ∧
    (m.tags = none → t2.tags = t.tags) ∧
    (∀ v, m.priority = some v → t2.priority = v) ∧
    (m.priority = none → t2.priority = t.priority) := by
  obtain ⟨hmem, hid, hown⟩ := get_task_some_facts hget
  have hupd : db.update_task oid tid m =
      (some (applyTaskUpdate t m),
        { db with tasks := replaceFirstTask oid tid (applyTaskUpdate t m) db.tasks }) := by
    rw [TaskDB.update_task, hget]
  have ht2 : t2 = applyTaskUpdate t m := by
    rw [hupd] at hres
    injection hres.symm
  subst ht2
  have hmatch2 : taskMatch oid tid (applyTaskUpdate t m) = true := by
    simp [applyTaskUpdate, taskMatch, hid, hown]
  refine ⟨?_, ?_, ?_, ?_, ?_, ?_, ?_, ?_, ?_, ?_, ?_, ?_, ?_, ?_, ?_, ?_, ?_, ?_, ?_⟩
  · rw [hupd]
    exact find?_replaceFirstTask hget hmatch2
  · simp [applyTaskUpdate]
  · simp [applyTaskUpdate]
  · intro v hv
    simp [applyTaskUpdate, hv]
  · intro hv
    simp [applyTaskUpdate, hv]
  · intro v hv
    simp [applyTaskUpdate, hv]
  · intro hv
    simp [applyTaskUpdate, hv]
  · intro v hv
    simp [applyTaskUpdate, hv]
  · intro hv
    simp [applyTaskUpdate, hv]
  · intro v hv
    simp [applyTaskUpdate, hv]
  · intro hv
    simp [applyTaskUpdate, hv]
  · intro v hv
    simp [applyTaskUpdate, hv]
  · intro hv
    simp [applyTaskUpdate, hv]
  · intro v hv
    simp [applyTaskUpdate, hv]
  · intro hv
    simp [applyTaskUpdate, hv]
  · intro v hv
    simp [applyTaskUpdate, hv]
  · intro hv
    simp [applyTaskUpdate, hv]
  · intro v hv
    simp [applyTaskUpdate, hv]
  · intro hv
    simp [applyTaskUpdate, hv]

/-- Witness for C3: a name-only update of the stored task renames it in
place, leaving the priority at its pre-update value. -/
theorem update_touches_only_supplied_fields_witness :
    db1.get_task 1 1 = some t1 ∧
    (db1.update_task 1 1 mRename).1 = some t1Renamed ∧
    (db1.update_task 1 1 mRename).2.get_task 1 1 = some t1Renamed ∧
    t1Renamed.priority = t1.priority :=
  ⟨rfl, rfl,
    (update_touches_only_supplied_fields db1 1 1 mRename t1 t1Renamed rfl rfl).1,
    (update_touches_only_supplied_fields db1 1 1 mRename t1 t1Renamed rfl
      rfl).2.2.2.2.2.2.2.2.2.2.2.2.2.2.2.2.2.2 rfl⟩

/-- C6 (amended). The database-backed `get_categories` returns, for every
owner id, a lexicographically sorted duplicate-free list holding exactly
the category labels appearing on that owner's tasks. -/
theorem get_categories_sorted_distinct (db : TaskDB) (oid : Nat) :
    (db.get_categories oid).Sorted (· ≤ ·) ∧
    (db.get_categories oid).Nodup ∧
    ∀ s, s ∈ db.get_categories oid ↔ ∃ t ∈ db.tasks, t.owner_id = oid ∧ t.category = s := by
  refine ⟨List.sorted_insertionSort _ _, ?_, ?_⟩
  · have hperm := List.perm_insertionSort (α := String) (· ≤ ·)
      (((db.tasks.filter (fun t => t.owner_id == oid)).map Task.category).dedup)
    exact hperm.nodup_iff.mpr (List.nodup_dedup _)
  · intro s
    rw [TaskDB.get_categories, List.mem_insertionSort, List.mem_dedup, List.mem_map]
    constructor
    · rintro ⟨t, ht, rfl⟩
      have hf := List.mem_filter.mp ht
      exact ⟨t, hf.1, by simpa using hf.2, rfl⟩
    · rintro ⟨t, ht, hown, rfl⟩
      exact ⟨t, List.mem_filter.mpr ⟨ht, by simpa using hown⟩, rfl⟩

/-- C6 counterexample: `TaskServiceJson.get_categories` called with owner
id 0 on a store whose only task belongs to owner 1 returns that task's
label even though owner 0 owns no task at all — so the JSON-backed
implementation does not return the labels appearing on that owner's
tasks. -/
theorem json_get_categories_counterexample :
    getCategoriesJson [jsonCatTask] 0 = ["Work"] ∧
    jsonCatTask.owner_id = 1 ∧
    [jsonCatTask].filter (fun t => t.owner_id == 0) = [] :=
  ⟨rfl, rfl, rfl⟩

theorem find?_append_left_none {α : Type} {p : α → Bool} {l1 l2 : List α}
    (h : ∀ x ∈ l1, p x = false) : (l1 ++ l2).find? p = l2.find? p := by
  induction l1 with
  | nil => rfl
  | cons x xs ih =>
    rw [List.cons_append, List.find?_cons_of_neg, ih fun y hy => h y (List.mem_cons_of_mem x hy)]
    simp [h x (List.mem_cons_self x xs)]

/-- C8. Create-then-get round trip: on a well-formed store, `create_task`
returns a row carrying the fresh identity and exactly the draft's fields,
a scoped get with the owner id and the new id answers that very row, and a
draft supplying only owner and name receives the documented defaults
(empty description, category `General`, empty parameter map, not
completed, priority 0, no due timestamp). -/
theorem create_then_get_roundtrip (db : TaskDB) (d : TaskCreate) (hwf : db.WF) :
    (db.create_task d).1.id = db.nextId ∧
    (db.create_task d).2.get_task d.owner_id (db.create_task d).1.id
      = some (db.create_task d).1 ∧
    (db.create_task d).1.owner_id = d.owner_id ∧
    (db.create_task d).1.name = d.name ∧
    (db.create_task d).1.description = d.description ∧
    (db.create_task d).1.category = d.category ∧
    (db.create_task d).1.dueDate = d.dueDate ∧
    (db.create_task d).1.parameters = d.parameters ∧
    (db.create_task d).1.completed = d.completed ∧
    (db.create_task d).1.tags = d.tags ∧
    (db.create_task d).1.priority = d.priority ∧
    (∀ o n, ((db.create_task { owner_id := o, name := n }).1.description = "" ∧
      (db.create_task { owner_id := o, name := n }).1.category = "General" ∧
      (db.create_task { owner_id := o, name := n }).1.parameters = [] ∧
      (db.create_task { owner_id := o, name := n }).1.completed = false ∧
      (db.create_task { owner_id := o, name := n }).1.priority = 0 ∧
      (db.create_task { owner_id := o, name := n }).1.dueDate = none)) := by
  have hleft : ∀ x ∈ db.tasks, taskMatch d.owner_id db.nextId x = false := by
    intro x hx
    have hlt := hwf.2 x hx
    have h1 : ¬(taskMatch d.owner_id db.nextId x = true) := by
      rw [taskMatch_iff]
      rintro ⟨h1, -⟩
      exact absurd h1 (Nat.ne_of_lt hlt)
    simpa using h1
  have hget : (db.tasks ++ [(db.create_task d).1]).find? (taskMatch d.owner_id db.nextId)
      = some (db.create_task d).1 := by
    rw [find?_append_left_none hleft]
    apply List.find?_cons_of_pos
    rw [taskMatch_iff]
    exact ⟨rfl, rfl⟩
  exact ⟨rfl, hget, rfl, rfl, rfl, rfl, rfl, rfl, rfl, rfl, rfl,
    fun o n => ⟨rfl, rfl, rfl, rfl, rfl, rfl⟩⟩

/-- Witness for C8: creating from the two-field draft on the concrete
store yields a row that the scoped get finds again. -/
theorem create_then_get_roundtrip_witness :
    TaskDB.WF db1 ∧
    (db1.create_task d0).2.get_task 5 ((db1.create_task d0).1.id)
      = some (db1.create_task d0).1 :=
  ⟨by decide, (create_then_get_roundtrip db1 d0 (by decide)).2.1⟩

theorem find?_replaceFirstUser {uid : Nat} {l : List User} {u u2 : User}
    (hf : l.find? (fun x => x.id == uid) = some u)
    (h2 : (u2.id == uid) = true) :
    (replaceFirstUser uid u2 l).find? (fun x => x.id == uid) = some u2 := by
  induction l with
  | nil => simp at hf
  | cons x xs ih =>
    by_cases hx : (x.id == uid) = true
    · rw [replaceFirstUser, if_pos hx]
      exact List.find?_cons_of_pos _ h2
    · rw [List.find?_cons_of_neg (p := fun (y : User) => y.id == uid) _ hx] at hf
      rw [replaceFirstUser, if_neg hx,
        List.find?_cons_of_neg (p := fun (y : User) => y.id == uid) _ hx]
      exact ih hf

theorem upsertByName_not_found {α : Type} (key : α → String) {n : String} (v : α)
    {l : List α} (h : l.any (fun x => key x == n) = false) :
    upsertByName key n v l = l ++ [v] := by
  induction l with
  | nil => rfl
  | cons x xs ih =>
    rw [List.any_cons, Bool.or_eq_false_iff] at h
    rw [upsertByName, h.1]
    simp only [Bool.false_eq_true, if_false]
    rw [ih h.2, List.cons_append]

theorem upsertByName_found {α : Type} (key : α → String) {n : String} (v : α)
    {l : List α} (h : l.any (fun x => key x == n) = true) :
    (upsertByName key n v l).length = l.length ∧
    (upsertByName key n v l)[l.findIdx (fun x => key x == n)]? = some v ∧
    (∃ old, l[l.findIdx (fun x => key x == n)]? = some old ∧ key old = n) ∧
    ∀ j, j ≠ l.findIdx (fun x => key x == n) →
      (upsertByName key n v l)[j]? = l[j]? := by
  induction l with
  | nil => simp at h
  | cons x xs ih =>
    by_cases hx : (key x == n) = true
    · have hfi : (x :: xs).findIdx (fun x => key x == n) = 0 := by
        rw [List.findIdx_cons]
        simp [hx]
      have hup : upsertByName key n v (x :: xs) = v :: xs := by
        rw [upsertByName, if_pos hx]
      rw [hup, hfi]
      refine ⟨by simp, by simp, ⟨x, by simp, by simpa using hx⟩, ?_⟩
      intro j hj
      match j with
      | 0 => exact absurd rfl hj
      | j + 1 => simp
    · have hx' : (key x == n) = false := by simpa using hx
      have hany : xs.any (fun x => key x == n) = true := by
        rw [List.any_cons, hx'] at h
        simpa using h
      have hfi : (x :: xs).findIdx (fun x => key x == n)
          = xs.findIdx (fun x => key x == n) + 1 := by
        rw [List.findIdx_cons, hx']
        rfl
      have hup : upsertByName key n v (x :: xs) = x :: upsertByName key n v xs := by
        rw [upsertByName, if_neg hx]
      obtain ⟨ihlen, ihat, ⟨old, hold, holdn⟩, ihne⟩ := ih hany
      rw [hup, hfi]
      refine ⟨by simp [ihlen], by simpa using ihat, ⟨old, by simpa using hold, holdn⟩, ?_⟩
      intro j hj
      match j with
      | 0 => simp
      | j + 1 =>
        have hj' : j ≠ xs.findIdx (fun x => key x == n) := by
          intro hc
          exact hj (by rw [hc])
        simpa using ihne j hj'

theorem deleteByName_eq_filter {α : Type} (key : α → String) (n : String) (l : List α) :
    deleteByName key n l
      = (l.filter (fun x => key x == n), l.filter (fun x => !(key x == n))) := by
  induction l with
  | nil => rfl
  | cons x xs ih =>
    rw [deleteByName, ih]
    by_cases hx : (key x == n) = true
    · simp [List.filter_cons, hx]
    · have hx' : (key x == n) = false := by simpa using hx
      simp [List.filter_cons, hx']

/-- C1. Upsert-by-name for categories and tags: for an existing user, an
upsert whose name is already present replaces that entry in place — the
length is unchanged, the entry at the first matching position becomes the
submitted one (same name, new color), every other position is untouched —
while an upsert with a fresh name appends, growing the list by exactly
one; in both cases the submitted entry is returned. -/
theorem upsert_by_name_spec (db : UserDB) (uid : Nat) (c : Category) (tg : Tag) (u : User)
    (hu : db.get_user uid = some u) :
    (db.create_category uid c).1 = some c ∧
    (db.create_tag uid tg).1 = some tg ∧
    (∃ u2 l2, (db.create_category uid c).2.get_user uid = some u2 ∧
      u2.categories = some l2 ∧
      ((u.categories.getD []).any (fun x => x.name == c.name) = true →
        l2.length = (u.categories.getD []).length ∧
        l2[(u.categories.getD []).findIdx (fun x => x.name == c.name)]? = some c ∧
        (∃ old, (u.categories.getD [])[(u.categories.getD []).findIdx
            (fun x => x.name == c.name)]? = some old ∧ old.name = c.name) ∧
        (∀ j, j ≠ (u.categories.getD []).findIdx (fun x => x.name == c.name) →
          l2[j]? = (u.categories.getD [])[j]?)) ∧
      ((u.categories.getD []).any (fun x => x.name == c.name) = false →
        l2 = (u.categories.getD []) ++ [c] ∧
        l2.length = (u.categories.getD []).length + 1)) ∧
    (∃ u3 l3, (db.create_tag uid tg).2.get_user uid = some u3 ∧
      u3.tags = some l3 ∧
      ((u.tags.getD []).any (fun x => x.name == tg.name) = true →
        l3.length = (u.tags.getD []).length ∧
        l3[(u.tags.getD []).findIdx (fun x => x.name == tg.name)]? = some tg ∧
        (∃ old, (u.tags.getD [])[(u.tags.getD []).findIdx
            (fun x => x.name == tg.name)]? = some old ∧ old.name = tg.name) ∧
        (∀ j, j ≠ (u.tags.getD []).findIdx (fun x => x.name == tg.name) →
          l3[j]? = (u.tags.getD [])[j]?)) ∧
      ((u.tags.getD []).any (fun x => x.name == tg.name) = false →
        l3 = (u.tags.getD []) ++ [tg] ∧
        l3.length = (u.tags.getD []).length + 1)) := by
  have hu' : db.users.find? (fun x => x.id == uid) = some u := hu
  have huid0 := List.find?_some hu'
  have huid : (u.id == uid) = true := huid0
  refine ⟨?_, ?_, ?_, ?_⟩
  · simp only [UserDB.create_category, hu]
  · simp only [UserDB.create_tag, hu]
  · refine ⟨{ u with categories := some (upsertByName Category.name c.name c
        (u.categories.getD [])) },
      upsertByName Category.name c.name c (u.categories.getD []), ?_, rfl, ?_, ?_⟩
    · simp only [UserDB.create_category, hu]
      exact find?_replaceFirstUser hu' huid
    · intro hany
      exact upsertByName_found Category.name c hany
    · intro hnone
      have he := upsertByName_not_found Category.name c hnone
      exact ⟨he, by rw [he]; simp⟩
  · refine ⟨{ u with tags := some (upsertByName Tag.name tg.name tg (u.tags.getD [])) },
      upsertByName Tag.name tg.name tg (u.tags.getD []), ?_, rfl, ?_, ?_⟩
    · simp only [UserDB.create_tag, hu]
      exact find?_replaceFirstUser hu' huid
    · intro hany
      exact upsertByName_found Tag.name tg hany
    · intro hnone
      have he := upsertByName_not_found Tag.name tg hnone
      exact ⟨he, by rw [he]; simp⟩

/-- Witness for C1: recoloring the stored `Work` category returns the
submitted category. -/
theorem upsert_by_name_spec_witness :
    udb1.get_user 1 = some u1 ∧ (udb1.create_category 1 cWork2).1 = some cWork2 :=
  ⟨rfl, (upsert_by_name_spec udb1 1 cWork2 tgNew u1 rfl).1⟩

/-- C7. `delete_category` and `delete_tag` on an existing user remove
exactly the entries whose name matches the given name, return the removed
entries, and — when nothing matches — return the empty list (not an
error) and leave the stored list unchanged. -/
theorem delete_by_name_exact (db : UserDB) (uid : Nat) (n : String) (u : User)
    (hu : db.get_user uid = some u) :
    (db.delete_category uid n).1
      = some ((u.categories.getD []).filter (fun x => x.name == n)) ∧
    (∃ u2, (db.delete_category uid n).2.get_user uid = some u2 ∧
      u2.categories = some ((u.categories.getD []).filter (fun x => !(x.name == n)))) ∧
    ((u.categories.getD []).all (fun x => !(x.name == n)) = true →
      (db.delete_category uid n).1 = some [] ∧
      ∃ u2, (db.delete_category uid n).2.get_user uid = some u2 ∧
        u2.categories = some (u.categories.getD [])) ∧
    (db.delete_tag uid n).1
      = some ((u.tags.getD []).filter (fun x => x.name == n)) ∧
    (∃ u3, (db.delete_tag uid n).2.get_user uid = some u3 ∧
      u3.tags = some ((u.tags.getD []).filter (fun x => !(x.name == n)))) ∧
    ((u.tags.getD []).all (fun x => !(x.name == n)) = true →
      (db.delete_tag uid n).1 = some [] ∧
      ∃ u3, (db.delete_tag uid n).2.get_user uid = some u3 ∧
        u3.tags = some (u.tags.getD [])) := by
  have hu' : db.users.find? (fun x => x.id == uid) = some u := hu
  have huid0 := List.find?_some hu'
  have huid : (u.id == uid) = true := huid0
  have hcats : ∀ (hall : (u.categories.getD []).all (fun x => !(x.name == n)) = true),
      (u.categories.getD []).filter (fun x => x.name == n) = []
      ∧ (u.categories.getD []).filter (fun x => !(x.name == n)) = u.categories.getD [] := by
    intro hall
    rw [List.all_eq_true] at hall
    constructor
    · rw [List.filter_eq_nil_iff]
      intro a ha
      have := hall a ha
      simpa using this
    · rw [List.filter_eq_self]
      exact hall
  have htags : ∀ (hall : (u.tags.getD []).all (fun x => !(x.name == n)) = true),
      (u.tags.getD []).filter (fun x => x.name == n) = []
      ∧ (u.tags.getD []).filter (fun x => !(x.name == n)) = u.tags.getD [] := by
    intro hall
    rw [List.all_eq_true] at hall
    constructor
    · rw [List.filter_eq_nil_iff]
      intro a ha
      have := hall a ha
      simpa using this
    · rw [List.filter_eq_self]
      exact hall
  have hdc1 : (db.delete_category uid n).1
      = some ((u.categories.getD []).filter (fun x => x.name == n)) := by
    simp only [UserDB.delete_category, hu, deleteByName_eq_filter]
  have hdc2 : (db.delete_category uid n).2.get_user uid
      = some ({ u with categories := some ((u.categories.getD []).filter
          (fun x => !(x.name == n))) }) := by
    simp only [UserDB.delete_category, hu, deleteByName_eq_filter]
    exact find?_replaceFirstUser hu' huid
  have hdt1 : (db.delete_tag uid n).1
      = some ((u.tags.getD []).filter (fun x => x.name == n)) := by
    simp only [UserDB.delete_tag, hu, deleteByName_eq_filter]
  have hdt2 : (db.delete_tag uid n).2.get_user uid
      = some ({ u with tags := some ((u.tags.getD []).filter
          (fun x => !(x.name == n))) }) := by
    simp only [UserDB.delete_tag, hu, deleteByName_eq_filter]
    exact find?_replaceFirstUser hu' huid
  refine ⟨hdc1, ⟨_, hdc2, rfl⟩, ?_, hdt1, ⟨_, hdt2, rfl⟩, ?_⟩
  · intro hall
    obtain ⟨h1, h2⟩ := hcats hall
    exact ⟨by rw [hdc1, h1], _, hdc2, by rw [h2]⟩
  · intro hall
    obtain ⟨h1, h2⟩ := htags hall
    exact ⟨by rw [hdt1, h1], _, hdt2, by rw [h2]⟩

/-- Witness for C7: deleting a category name the stored user does not
have returns the empty removed-list. -/
theorem delete_by_name_exact_witness :
    udb1.get_user 1 = some u1 ∧ (udb1.delete_category 1 "Missing").1 = some [] :=
  ⟨rfl, ((delete_by_name_exact udb1 1 "Missing" u1 rfl).2.2.1 rfl).1⟩

theorem applyUserUpdate_some {u u2 : User} {m : UserUpdateMap}
    (h : applyUserUpdate u m = some u2) :
    u2.id = u.id ∧
    u2.username = m.username.getD u.username ∧
    u2.email = m.email.getD u.email ∧
    u2.hashed_password = m.hashed_password.getD u.hashed_password ∧
    u2.full_name = m.full_name.getD u.full_name ∧
    u2.disabled = m.disabled.getD u.disabled := by
  rw [applyUserUpdate] at h
  rcases hc : (match m.categories with
      | none => some u.categories
      | some none => some none
      | some (some l) => (l.mapM validateCategoryDict).map some) with - | cats
  · rw [hc] at h
    exact Option.noConfusion h
  · rw [hc] at h
    rcases ht : (match m.tags with
        | none => some u.tags
        | some none => some none
        | some (some l) => (l.mapM validateTagDict).map some) with - | tgs
    · rw [ht] at h
      exact Option.noConfusion h
    · rw [ht] at h
      obtain rfl : ({ u with
          username := m.username.getD u.username
          email := m.email.getD u.email
          hashed_password := m.hashed_password.getD u.hashed_password
          full_name := m.full_name.getD u.full_name
          disabled := m.disabled.getD u.disabled
          categories := cats
          tags := tgs } : User) = u2 := by
        injection h
      exact ⟨rfl, rfl, rfl, rfl, rfl, rfl⟩

/-- C9. `update_user` never changes a user's identity: for every partial
field map — including maps carrying an `id` entry — the stored user keeps
its pre-update id, and on success the returned (and stored) row keeps the
id while every other supplied scalar field holds its supplied value. -/
theorem update_user_preserves_id (db : UserDB) (uid : Nat) (m : UserUpdateMap) (u : User)
    (hu : db.get_user uid = some u) :
    (∃ u2, (db.update_user uid m).2.get_user uid = some u2 ∧ u2.id = u.id) ∧
    (∀ u2, (db.update_user uid m).1 = UpdateUserResult.ok u2 →
      u2.id = u.id ∧
      (∀ v, m.username = some v → u2.username = v) ∧
      (∀ v, m.email = some v → u2.email = v) ∧
      (∀ v, m.hashed_password = some v → u2.hashed_password = v) ∧
      (∀ v, m.full_name = some v → u2.full_name = v) ∧
      (∀ v, m.disabled = some v → u2.disabled = v) ∧
      (db.update_user uid m).2.get_user uid = some u2) := by
  have hu' : db.users.find? (fun x => x.id == uid) = some u := hu
  have huid0 := List.find?_some hu'
  have huid : (u.id == uid) = true := huid0
  rcases happ : applyUserUpdate u m with - | u2
  · have hupd : db.update_user uid m = (.error, db) := by
      simp only [UserDB.update_user, hu, happ]
    rw [hupd]
    exact ⟨⟨u, hu, rfl⟩, fun u2 h => absurd h (by simp)⟩
  · obtain ⟨hid, hun, hem, hhp, hfn, hdis⟩ := applyUserUpdate_some happ
    have h2 : (u2.id == uid) = true := by
      rw [hid]
      exact huid
    have hupd : db.update_user uid m =
        (.ok u2, { db with users := replaceFirstUser uid u2 db.users }) := by
      simp only [UserDB.update_user, hu, happ]
    have hget2 : ({ db with users := replaceFirstUser uid u2 db.users } : UserDB).get_user uid
        = some u2 := find?_replaceFirstUser hu' h2
    rw [hupd]
    refine ⟨⟨u2, hget2, hid⟩, ?_⟩
    intro u3 h3
    obtain rfl : u2 = u3 := by
      have h4 : UpdateUserResult.ok u2 = UpdateUserResult.ok u3 := h3
      injection h4
    refine ⟨hid, ?_, ?_, ?_, ?_, ?_, hget2⟩
    · intro v hv
      rw [hun, hv]
      rfl
    · intro v hv
      rw [hem, hv]
      rfl
    · intro v hv
      rw [hhp, hv]
      rfl
    · intro v hv
      rw [hfn, hv]
      rfl
    · intro v hv
      rw [hdis, hv]
      rfl

/-- Witness for C9: an update carrying an `id` entry of 99 and a new
username leaves the stored id at 1 while the username is applied. -/
theorem update_user_preserves_id_witness :
    udb1.get_user 1 = some u1 ∧
    (udb1.update_user 1 mUserUpd).1
      = UpdateUserResult.ok ({ u1 with username := "bob" } : User) ∧
    ({ u1 with username := "bob" } : User).id = u1.id :=
  ⟨rfl, rfl,
    ((update_user_preserves_id udb1 1 mUserUpd u1 rfl).2
      ({ u1 with username := "bob" } : User) rfl).1⟩

theorem get_by_username_after_create (db : UserDB) (uc : UserCreate)
    (hfree2 : ∀ x ∈ db.users, (x.username == uc.username) = false) :
    (db.create_user uc).2.get_user_by_username uc.username = some (db.create_user uc).1 := by
  rw [UserDB.get_user_by_username]
  show (db.users ++ [(db.create_user uc).1]).find? (fun x => x.username == uc.username)
      = some (db.create_user uc).1
  rw [find?_append_left_none hfree2]
  apply List.find?_cons_of_pos
  exact beq_self_eq_true uc.username

/-- C10. Every user created through the `/register` route starts active
with the fixed defaults: independent of the submitted email, full name
and category/tag lists, the created record — which is also the row stored
under the submitted username — has `disabled = False`, an empty tag list,
and exactly one category named `General` with color `#5dafb0`. -/
theorem register_defaults (db : UserDB) (hash : String → String) (inp : UserCreate)
    (hfree : db.get_user_by_username inp.username = none) :
    (register db hash inp).1.map User.disabled = some false ∧
    (register db hash inp).1.map User.tags = some (some []) ∧
    (register db hash inp).1.map User.categories
      = some (some [{ name := "General", color := "#5dafb0" }]) ∧
    (register db hash inp).2.get_user_by_username inp.username = (register db hash inp).1 := by
  have hnomatch : ∀ x ∈ db.users, (x.username == inp.username) = false := by
    have h0 : db.users.find? (fun x => x.username == inp.username) = none := hfree
    rw [List.find?_eq_none] at h0
    intro x hx
    have := h0 x hx
    simpa using this
  simp only [register, hfree]
  refine ⟨rfl, rfl, rfl, ?_⟩
  exact get_by_username_after_create db _ hnomatch

/-- Witness for C10: registering `bob` with custom category and tag lists
stores a record whose category list is exactly the default `General`
entry. -/
theorem register_defaults_witness :
    udb1.get_user_by_username inpBob.username = none ∧
    (register udb1 idHash inpBob).1.map User.categories
      = some (some [{ name := "General", color := "#5dafb0" }]) :=
  ⟨rfl, (register_defaults udb1 idHash inpBob rfl).2.2.1⟩

/-- Witness for the amended C6: the stored task's label is reported for
its owner by the database-backed `get_categories`. -/
theorem get_categories_sorted_distinct_witness :
    "General" ∈ db1.get_categories 1 :=
  ((get_categories_sorted_distinct db1 1).2.2 "General").mpr
    ⟨t1, by decide, rfl, rfl⟩

end TaskyApp
